import Mathlib

/-!
Verification of the multi-camera 4K capture program (pycam.py).

Shallow embedding of the timing- and control-relevant parts of the code:
the FPS counter class, the WebcamVideoStream capture (update) and write
loops, the TTL pulse-wait loops in main, and the stop / teardown phase.
Instants and durations are rationals (seconds); a frame buffer is
Option Nat, where none models the buffer returned by a failed device read.
-/

namespace Pycam

/-- State of the FPS counter class in pycam.py: the recorded start and end
instants (seconds) and the number of frames examined between them. -/
structure FPS where
  _start : ℚ
  _end : ℚ
  _numFrames : ℕ

/-- FPS.stop: record the end instant (self._end = datetime.datetime.now()). -/
def FPS.stop (t : ℚ) (c : FPS) : FPS := { c with _end := t }

/-- FPS.update: increment the number of frames examined. -/
def FPS.update (c : FPS) : FPS := { c with _numFrames := c._numFrames + 1 }

/-- FPS.elapsed: total seconds between the start and end instants. -/
def FPS.elapsed (c : FPS) : ℚ := c._end - c._start

/-- FPS.fps: 0 when elapsed is 0, otherwise numFrames divided by elapsed. -/
def FPS.fps (c : FPS) : ℚ :=
  if c.elapsed = 0 then 0 else (c._numFrames : ℚ) / c.elapsed

/-- One iteration of the WebcamVideoStream.write loop, tracking only the
frame counter: at elapsed wall-clock time elaps, the frame is emitted and
current_frame incremented exactly when elaps exceeds
frame_index * current_frame (with frame_index = 1 / fps). -/
def writeStep (frame_index elaps : ℚ) (current_frame : ℕ) : ℕ :=
  if frame_index * (current_frame : ℚ) < elaps then current_frame + 1
  else current_frame

/-- The write loop run over a list of per-iteration elapsed times. -/
def writeRun (frame_index : ℚ) (ts : List ℚ) (c : ℕ) : ℕ :=
  ts.foldl (fun cur t => writeStep frame_index t cur) c

/-- Mutable state of one WebcamVideoStream shared by its capture (update)
loop and its write loop. frame = none models the buffer returned by a
failed read; written records the frames sent to the sink, in order; fps is
the configured target output rate set by main. -/
structure WebcamVideoStream where
  grabbed : Bool
  frame : Option ℕ
  current_frame : ℕ
  written : List (Option ℕ)
  fps : ℤ

/-- The constructor: it performs one device read
(self.grabbed, self.frame) = self.stream.read() before any loop starts,
and initializes current_frame to 0. -/
def WebcamVideoStream.init (f : ℤ) (firstRead : Bool × Option ℕ) :
    WebcamVideoStream :=
  { grabbed := firstRead.1
    frame := firstRead.2
    current_frame := 0
    written := []
    fps := f }

/-- One iteration of the update loop:
(self.grabbed, self.frame) = self.stream.read(), storing the device result
unconditionally, whether or not the read succeeded. -/
def WebcamVideoStream.updateStep (readResult : Bool × Option ℕ)
    (st : WebcamVideoStream) : WebcamVideoStream :=
  { st with grabbed := readResult.1, frame := readResult.2 }

/-- The update loop over a list of device read results. -/
def WebcamVideoStream.updateRun (reads : List (Bool × Option ℕ))
    (st : WebcamVideoStream) : WebcamVideoStream :=
  reads.foldl (fun s r => WebcamVideoStream.updateStep r s) st

/-- One iteration of the write loop on the full stream state: when the
wall-clock guard fires, self.out.write(self.frame) is executed and then
self.current_frame is incremented. -/
def WebcamVideoStream.writeIter (frame_index elaps : ℚ)
    (st : WebcamVideoStream) : WebcamVideoStream :=
  if frame_index * (st.current_frame : ℚ) < elaps then
    { st with
        written := st.written ++ [st.frame]
        current_frame := st.current_frame + 1 }
  else st

/-- An interleaving event of the two loops of one stream: a capture-loop
device read (with the returned flag and buffer) or a write-loop iteration
at a given elapsed wall-clock time. -/
inductive CamEvent where
  | read : Bool → Option ℕ → CamEvent
  | tick : ℚ → CamEvent

/-- One event of the interleaved execution of the update and write loops. -/
def camStep (frame_index : ℚ) (st : WebcamVideoStream) :
    CamEvent → WebcamVideoStream
  | CamEvent.read g fr => WebcamVideoStream.updateStep (g, fr) st
  | CamEvent.tick t => WebcamVideoStream.writeIter frame_index t st

/-- A run of one stream: construction (the initial read in the
constructor), then the two loops interleaved as given by evs. -/
def camRun (frame_index : ℚ) (f : ℤ) (firstRead : Bool × Option ℕ)
    (evs : List CamEvent) : WebcamVideoStream :=
  evs.foldl (camStep frame_index) (WebcamVideoStream.init f firstRead)

/-- The camera-setup phase of main: every configured stream is constructed
and started; there is no open-failure check anywhere between construction
and start, so each stream runs regardless of the open results. -/
def startAllStreams (frame_index : ℚ) (f : ℤ)
    (opens : List (Bool × Option ℕ)) (evs : List CamEvent) :
    List WebcamVideoStream :=
  opens.map (fun o => camRun frame_index f o evs)

/-- The TTL wait loop in main (used for both the ON wait and the OFF
wait): read one sample per iteration and set the flag, closing the task
and leaving the loop, as soon as a sample is true. The result is the
index of the iteration that observed true, or none when every sample in
the trace is false, meaning the loop is still blocked. -/
def pulseWait : List Bool → Option ℕ
  | [] => none
  | b :: rest => if b then some 0 else (pulseWait rest).map (fun i => i + 1)

/-- Python 3 round: round half to even, on a rational. -/
def pyRound (q : ℚ) : ℤ :=
  if q - (⌊q⌋ : ℚ) < 1/2 then ⌊q⌋
  else if 1/2 < q - (⌊q⌋ : ℚ) then ⌊q⌋ + 1
  else if ⌊q⌋ % 2 = 0 then ⌊q⌋ else ⌊q⌋ + 1

/-- The post-session check in main: warn exactly when
round(average_fps) < target fps. -/
def underDeliveryWarning (average_fps : ℚ) (target : ℤ) : Bool :=
  decide (pyRound average_fps < target)

/-- The grace period in WebcamVideoStream.stop: time.sleep(5). -/
def gracePeriod : ℚ := 5

/-- Result of WebcamVideoStream.stop: the cleared flag, the updated FPS
counter, and the instants at which the device and the sink are released. -/
structure StopState where
  stopped : Bool
  counter : FPS
  streamReleasedAt : Option ℚ
  outReleasedAt : Option ℚ

/-- WebcamVideoStream.stop called at instant t: set stopped, record the
FPS counter end instant, sleep the grace period, then release the device
and the sink (both at t + gracePeriod). -/
def stopAt (t : ℚ) (c : FPS) : StopState :=
  { stopped := true
    counter := FPS.stop t c
    streamReleasedAt := some (t + gracePeriod)
    outReleasedAt := some (t + gracePeriod) }

/-- The teardown phase of main: the stop thread of one stream, started at
startTime, completes one grace period later. -/
def stopThreadCompletion (startTime : ℚ) : ℚ := startTime + gracePeriod

/-- Joining all stop threads, from instant t0: the join completes when the
last stop thread does. -/
def joinAll (startTimes : List ℚ) (t0 : ℚ) : ℚ :=
  (startTimes.map stopThreadCompletion).foldl max t0

/-- C5: the rate computation returns 0 when the elapsed duration between
the recorded start and end instants is 0, and otherwise returns the
emitted frame count divided by that elapsed duration in seconds. -/
theorem fps_zero_guard_and_ratio (c : FPS) :
    (c._end - c._start = 0 → c.fps = 0) ∧
    (c._end - c._start ≠ 0 →
      c.fps = (c._numFrames : ℚ) / (c._end - c._start)) := by
  constructor <;> intro h <;> simp [FPS.fps, FPS.elapsed, h]

/-- Witness for C5 at concrete counters. -/
theorem fps_zero_guard_and_ratio_witness :
    FPS.fps ⟨3, 3, 7⟩ = 0 ∧ FPS.fps ⟨1, 3, 10⟩ = 5 := by
  constructor
  · exact (fps_zero_guard_and_ratio ⟨3, 3, 7⟩).1 (by norm_num)
  · rw [(fps_zero_guard_and_ratio ⟨1, 3, 10⟩).2 (by norm_num)]
    norm_num

/-- C2 counterexample: a failed device read does not leave the
current-frame slot unchanged. With the slot holding frame 7, a failed read
returning (false, none) overwrites the slot with none. -/
theorem failed_read_overwrites_frame_slot :
    (WebcamVideoStream.updateStep (false, none)
        { grabbed := true, frame := some 7, current_frame := 3,
          written := [], fps := 5 }).frame ≠ some 7 := by
  simp [WebcamVideoStream.updateStep]

/-- C2 amended: a device read, failed or not, always overwrites the
current-frame slot and the grabbed flag with the device result (the
previous frame is not retained); it modifies nothing else, and the loop
continues with the subsequent reads. -/
theorem update_assigns_read_result (r : Bool × Option ℕ)
    (st : WebcamVideoStream) (reads : List (Bool × Option ℕ)) :
    (st.updateStep r).frame = r.2 ∧
    (st.updateStep r).grabbed = r.1 ∧
    (st.updateStep r).current_frame = st.current_frame ∧
    (st.updateStep r).written = st.written ∧
    WebcamVideoStream.updateRun (r :: reads) st =
      WebcamVideoStream.updateRun reads (st.updateStep r) :=
  ⟨rfl, rfl, rfl, rfl, rfl⟩

/-- C9: stop first clears the running flag and records the rate counter
end instant at the stop instant t, and only afterwards waits the fixed
grace period and releases the device and sink at t + gracePeriod; the
elapsed duration used for the achieved rate is t - start and does not
include the grace period. -/
theorem stop_records_end_before_grace_and_release (t : ℚ) (c : FPS) :
    (stopAt t c).stopped = true ∧
    (stopAt t c).counter._end = t ∧
    (stopAt t c).counter.elapsed = t - c._start ∧
    (stopAt t c).streamReleasedAt = some (t + gracePeriod) ∧
    (stopAt t c).outReleasedAt = some (t + gracePeriod) ∧
    t ≤ t + gracePeriod := by
  refine ⟨rfl, rfl, rfl, rfl, rfl, ?_⟩
  have h : (0 : ℚ) ≤ gracePeriod := by norm_num [gracePeriod]
  linarith

/-- C6: the trigger wait loop (same code shape for the start-edge wait and
the stop-edge wait) stays blocked, returning nothing, exactly while every
sampled value is false, and when it returns at iteration i the sample at i
is true and every earlier sample is false: no return before at least one
true sample is observed, and return at the first true sample. -/
theorem pulseWait_first_true_characterization (samples : List Bool) :
    (pulseWait samples = none ↔ ∀ b ∈ samples, b = false) ∧
    (∀ i, pulseWait samples = some i →
      samples.get? i = some true ∧
      ∀ j, j < i → samples.get? j = some false) := by
  induction samples with
  | nil =>
    refine ⟨by simp [pulseWait], ?_⟩
    intro i h
    simp [pulseWait] at h
  | cons b rest ih =>
    cases b with
    | true =>
      refine ⟨by simp [pulseWait], ?_⟩
      intro i h
      simp [pulseWait] at h
      subst h
      simp
    | false =>
      constructor
      · rw [show pulseWait (false :: rest)
            = (pulseWait rest).map (fun i => i + 1) by simp [pulseWait]]
        rw [Option.map_eq_none', ih.1]
        simp
      · intro i h
        rw [show pulseWait (false :: rest)
            = (pulseWait rest).map (fun i => i + 1) by simp [pulseWait]] at h
        rcases Option.map_eq_some'.mp h with ⟨i', hi', hii⟩
        subst hii
        have hchar := ih.2 i' hi'
        refine ⟨by simpa using hchar.1, ?_⟩
        intro j hj
        cases j with
        | zero => simp
        | succ j' =>
          have hj' : j' < i' := by omega
          simpa using hchar.2 j' hj'

/-- Witness for C6: a trace of all-false samples leaves the wait blocked,
and on the trace false-then-true the wait returns at index 1, where the
sample is true. -/
theorem pulseWait_first_true_characterization_witness :
    pulseWait [false, false] = none ∧
    ([false, true].get? 1 = some true ∧
      ∀ j, j < 1 → [false, true].get? j = some false) :=
  ⟨(pulseWait_first_true_characterization [false, false]).1.mpr (by decide),
   (pulseWait_first_true_characterization [false, true]).2 1 (by decide)⟩

/-- Helper: the half-to-even rounding always lands on a nearest integer:
its distance from the argument is at most one half. -/
theorem pyRound_nearest (q : ℚ) : |(pyRound q : ℚ) - q| ≤ 1/2 := by
  have h0 : (⌊q⌋ : ℚ) ≤ q := Int.floor_le q
  have h1 : q < (⌊q⌋ : ℚ) + 1 := Int.lt_floor_add_one q
  unfold pyRound
  split_ifs with hlt hgt heven <;>
    rw [abs_le] <;> constructor <;> push_cast <;> linarith

/-- C8: after a session stops, the per-pipeline under-delivery warning is
emitted if and only if the achieved rate, rounded (half to even, which
always yields a nearest integer), is strictly less than the configured
target output rate. -/
theorem warning_iff_rounded_rate_below_target (c : FPS) (target : ℤ) :
    (underDeliveryWarning c.fps target = true ↔ pyRound c.fps < target) ∧
    |(pyRound c.fps : ℚ) - c.fps| ≤ 1/2 :=
  ⟨by simp [underDeliveryWarning], pyRound_nearest _⟩

/-- Helper: one interleaving event preserves the relation between the
frame counter and the number of frames written to the sink. -/
theorem camStep_count_eq (fi : ℚ) (st : WebcamVideoStream) (e : CamEvent) :
    (camStep fi st e).written.length + st.current_frame
      = st.written.length + (camStep fi st e).current_frame := by
  cases e with
  | read g fr => rfl
  | tick t =>
    simp only [camStep, WebcamVideoStream.writeIter]
    split_ifs
    · simp only [List.length_append, List.length_cons, List.length_nil]
      omega
    · rfl

/-- Helper: no interleaving event decreases the frame counter. -/
theorem camStep_count_le (fi : ℚ) (st : WebcamVideoStream) (e : CamEvent) :
    st.current_frame ≤ (camStep fi st e).current_frame := by
  cases e with
  | read g fr => exact le_refl _
  | tick t =>
    simp only [camStep, WebcamVideoStream.writeIter]
    split_ifs
    · exact Nat.le_succ _
    · exact le_refl _

/-- Helper: over any interleaving, the increase of the frame counter
equals the number of frames appended to the sink. -/
theorem camFold_count_eq (fi : ℚ) :
    ∀ (evs : List CamEvent) (st : WebcamVideoStream),
      (evs.foldl (camStep fi) st).written.length + st.current_frame
        = st.written.length + (evs.foldl (camStep fi) st).current_frame := by
  intro evs
  induction evs with
  | nil => intro st; rfl
  | cons e evs ih =>
    intro st
    rw [List.foldl_cons]
    have h1 := camStep_count_eq fi st e
    have h2 := ih (camStep fi st e)
    omega

/-- Helper: the frame counter is monotone over any interleaving. -/
theorem camFold_count_le (fi : ℚ) :
    ∀ (evs : List CamEvent) (st : WebcamVideoStream),
      st.current_frame ≤ (evs.foldl (camStep fi) st).current_frame := by
  intro evs
  induction evs with
  | nil => intro st; exact le_refl _
  | cons e evs ih =>
    intro st
    rw [List.foldl_cons]
    exact le_trans (camStep_count_le fi st e) (ih (camStep fi st e))

/-- Helper: along any interleaving, the frame slot always holds either the
value it started with or the payload of some device read of the run, and
every frame written to the sink either was already written or is one of
those slot values. -/
theorem camFold_sources (fi : ℚ) :
    ∀ (evs : List CamEvent) (st : WebcamVideoStream),
      ((evs.foldl (camStep fi) st).frame = st.frame ∨
        ∃ g fr, CamEvent.read g fr ∈ evs ∧
          (evs.foldl (camStep fi) st).frame = fr) ∧
      (∀ x ∈ (evs.foldl (camStep fi) st).written,
        x ∈ st.written ∨ x = st.frame ∨
          ∃ g fr, CamEvent.read g fr ∈ evs ∧ x = fr) := by
  intro evs
  induction evs with
  | nil => intro st; exact ⟨Or.inl rfl, fun x hx => Or.inl hx⟩
  | cons e evs ih =>
    intro st
    rw [List.foldl_cons]
    obtain ⟨ihf, ihw⟩ := ih (camStep fi st e)
    cases e with
    | read g fr =>
      constructor
      · rcases ihf with h | ⟨g', fr', hmem, h⟩
        · exact Or.inr ⟨g, fr, List.mem_cons_self _ _, h⟩
        · exact Or.inr ⟨g', fr', List.mem_cons_of_mem _ hmem, h⟩
      · intro x hx
        rcases ihw x hx with h | h | ⟨g', fr', hmem, h⟩
        · exact Or.inl h
        · exact Or.inr (Or.inr ⟨g, fr, List.mem_cons_self _ _, h⟩)
        · exact Or.inr (Or.inr ⟨g', fr', List.mem_cons_of_mem _ hmem, h⟩)
    | tick t =>
      have hframe : (camStep fi st (CamEvent.tick t)).frame = st.frame := by
        simp only [camStep, WebcamVideoStream.writeIter]
        split_ifs <;> rfl
      have hwrit : ∀ y ∈ (camStep fi st (CamEvent.tick t)).written,
          y ∈ st.written ∨ y = st.frame := by
        intro y hy
        simp only [camStep, WebcamVideoStream.writeIter] at hy
        split_ifs at hy
        · rcases List.mem_append.mp hy with h | h
          · exact Or.inl h
          · simp only [List.mem_singleton] at h
            exact Or.inr h
        · exact Or.inl hy
      constructor
      · rcases ihf with h | ⟨g', fr', hmem, h⟩
        · exact Or.inl (h.trans hframe)
        · exact Or.inr ⟨g', fr', List.mem_cons_of_mem _ hmem, h⟩
      · intro x hx
        rcases ihw x hx with h | h | ⟨g', fr', hmem, h⟩
        · rcases hwrit x h with h' | h'
          · exact Or.inl h'
          · exact Or.inr (Or.inl h')
        · exact Or.inr (Or.inl (h.trans hframe))
        · exact Or.inr (Or.inr ⟨g', fr', List.mem_cons_of_mem _ hmem, h⟩)

/-- C7: the frame counter starts at 0, always equals the number of frames
actually written to the sink (it is incremented by exactly one per written
frame, and modified by no other operation), and never decreases as the
run is extended: writer output is strictly chronological. -/
theorem current_frame_monotone_counts_writes (fi : ℚ) (f : ℤ)
    (r : Bool × Option ℕ) (evs evs' : List CamEvent) :
    (WebcamVideoStream.init f r).current_frame = 0 ∧
    (camRun fi f r evs).current_frame = (camRun fi f r evs).written.length ∧
    (camRun fi f r evs).current_frame
      ≤ (camRun fi f r (evs ++ evs')).current_frame := by
  refine ⟨rfl, ?_, ?_⟩
  · have h := camFold_count_eq fi evs (WebcamVideoStream.init f r)
    simp only [WebcamVideoStream.init, List.length_nil] at h
    unfold camRun
    unfold WebcamVideoStream.init
    omega
  · unfold camRun
    rw [List.foldl_append]
    exact camFold_count_le fi evs' _

/-- C3 counterexample: with the initial constructor read failed and no
capture-loop read ever performed, the write loop still emits (the failed
read buffer): a write can occur although the source has never produced a
frame, because the write loop has no first-frame guard. -/
theorem write_occurs_without_any_produced_frame :
    (camRun (1/5) 5 (false, none) [CamEvent.tick 1]).written = [none] := by
  norm_num [camRun, camStep, WebcamVideoStream.writeIter, WebcamVideoStream.init]

/-- C3 amended: every buffer the write loop emits is the result of a
device read that happened earlier, either the read performed by the
constructor before the loops start or a capture-loop read; so the slot is
never an unassigned buffer, but no successful read is required before
emitting and a failed read result can be emitted. -/
theorem written_frames_come_from_device_reads (fi : ℚ) (f : ℤ)
    (firstRead : Bool × Option ℕ) (evs : List CamEvent) (x : Option ℕ)
    (hx : x ∈ (camRun fi f firstRead evs).written) :
    x = firstRead.2 ∨ ∃ g fr, CamEvent.read g fr ∈ evs ∧ x = fr := by
  have h := (camFold_sources fi evs (WebcamVideoStream.init f firstRead)).2 x hx
  rcases h with h | h | h
  · simp [WebcamVideoStream.init] at h
  · exact Or.inl h
  · exact Or.inr h

/-- Witness for the amended C3 at a concrete run: the single emitted frame
is the frame produced by the constructor read. -/
theorem written_frames_come_from_device_reads_witness :
    (some 3 : Option ℕ) = (((true : Bool), (some 3 : Option ℕ))).2 ∨
      ∃ g fr, CamEvent.read g fr ∈ [CamEvent.tick 1] ∧ (some 3 : Option ℕ) = fr :=
  written_frames_come_from_device_reads (1/5) 5 (true, some 3)
    [CamEvent.tick 1] (some 3)
    (by norm_num [camRun, camStep, WebcamVideoStream.writeIter,
      WebcamVideoStream.init])

/-- C4 counterexample: with the second camera device failing to open, main
still constructs and starts all four streams and each of them (the
successfully opened ones included) emits a frame: the controller does not
abort, and emission is not prevented. -/
theorem open_failure_session_still_emits :
    ((false, none) ∈ ([(true, some 1), (false, none), (true, some 2),
        (true, some 3)] : List (Bool × Option ℕ))) ∧
    ∀ st ∈ startAllStreams (1/5) 5
        [(true, some 1), (false, none), (true, some 2), (true, some 3)]
        [CamEvent.tick 1], st.written.length = 1 := by
  constructor
  · decide
  · intro st hst
    simp only [startAllStreams, List.map_cons, List.map_nil, List.mem_cons,
      List.not_mem_nil, or_false] at hst
    rcases hst with h | h | h | h <;> subst h <;>
      norm_num [camRun, camStep, WebcamVideoStream.writeIter,
        WebcamVideoStream.init]

/-- C4 amended: main performs no device-open check: every configured
stream is constructed and started regardless of the open results, and the
run of each stream is in the session, independent of whether any other
(or its own) device opened. -/
theorem all_streams_started_unconditionally (fi : ℚ) (f : ℤ)
    (opens : List (Bool × Option ℕ)) (evs : List CamEvent) :
    (startAllStreams fi f opens evs).length = opens.length ∧
    ∀ o ∈ opens, camRun fi f o evs ∈ startAllStreams fi f opens evs := by
  refine ⟨by simp [startAllStreams], ?_⟩
  intro o ho
  exact List.mem_map_of_mem _ ho

/-- Witness for the amended C4 at a concrete session. -/
theorem all_streams_started_unconditionally_witness :
    camRun (1/5) 5 (false, (none : Option ℕ)) [] ∈
      startAllStreams (1/5) 5 [(false, none)] [] :=
  (all_streams_started_unconditionally (1/5) 5 [(false, none)] []).2
    (false, none) (by decide)

/-- Helper: the write loop on a cons of iteration times. -/
theorem writeRun_cons (fi t : ℚ) (ts : List ℚ) (c : ℕ) :
    writeRun fi (t :: ts) c = writeRun fi ts (writeStep fi t c) := rfl

/-- Helper: the write loop never decreases the frame counter. -/
theorem le_writeRun (fi : ℚ) :
    ∀ (ts : List ℚ) (c : ℕ), c ≤ writeRun fi ts c := by
  intro ts
  induction ts with
  | nil => intro c; exact le_refl c
  | cons t ts ih =>
    intro c
    rw [writeRun_cons]
    refine le_trans ?_ (ih (writeStep fi t c))
    unfold writeStep
    split_ifs
    · exact Nat.le_succ _
    · exact le_refl _

/-- Helper invariant for the upper bound: every increment of the counter
is justified by an iteration time below T, so the last scheduled slot of
the final counter lies below T. -/
theorem writeRun_upper (fi T : ℚ) :
    ∀ (ts : List ℚ) (c : ℕ), (∀ t ∈ ts, t < T) →
      (c = 0 ∨ fi * ((c : ℚ) - 1) < T) →
      (writeRun fi ts c = 0 ∨ fi * ((writeRun fi ts c : ℚ) - 1) < T) := by
  intro ts
  induction ts with
  | nil => intro c _ hc; exact hc
  | cons t ts ih =>
    intro c ht hc
    rw [writeRun_cons]
    refine ih (writeStep fi t c) (fun u hu => ht u (List.mem_cons_of_mem _ hu)) ?_
    unfold writeStep
    split_ifs with hg
    · right
      have htT : t < T := ht t (List.mem_cons_self _ _)
      have h2 : ((c + 1 : ℕ) : ℚ) - 1 = (c : ℚ) := by push_cast; ring
      rw [h2]
      exact lt_trans hg htT
    · exact hc

/-- Helper for the lower bound: every iteration whose time is at least s
increments the counter unless the counter already reached s * f, so after
enough such iterations the counter is at least the ceiling of s * f. -/
theorem writeRun_lower (f s : ℚ) (hf : 0 < f) :
    ∀ (ts : List ℚ) (c : ℕ),
      min (⌈s * f⌉₊) (c + ts.countP (fun u => decide (s ≤ u)))
        ≤ writeRun (1/f) ts c := by
  intro ts
  induction ts with
  | nil =>
    intro c
    simp only [List.countP_nil, Nat.add_zero]
    exact min_le_right _ _
  | cons t ts ih =>
    intro c
    rw [writeRun_cons]
    by_cases hg : (1/f) * (c : ℚ) < t
    · have hstep : writeStep (1/f) t c = c + 1 := by
        unfold writeStep; rw [if_pos hg]
      rw [hstep]
      refine le_trans ?_ (ih (c + 1))
      have hcnt : List.countP (fun u => decide (s ≤ u)) (t :: ts)
          ≤ List.countP (fun u => decide (s ≤ u)) ts + 1 := by
        rw [List.countP_cons]
        split_ifs <;> omega
      exact min_le_min (le_refl _) (by omega)
    · have hstep : writeStep (1/f) t c = c := by
        unfold writeStep; rw [if_neg hg]
      rw [hstep]
      by_cases hst : s ≤ t
      · have h2 : t ≤ (1/f) * (c : ℚ) := not_lt.mp hg
        have h3 : s * f ≤ (c : ℚ) := by
          have h4 : s ≤ (1/f) * (c : ℚ) := le_trans hst h2
          have h5 : s * f ≤ ((1/f) * (c : ℚ)) * f :=
            mul_le_mul_of_nonneg_right h4 (le_of_lt hf)
          have h6 : ((1/f) * (c : ℚ)) * f = (c : ℚ) := by
            field_simp
          rw [h6] at h5
          exact h5
        have h7 : ⌈s * f⌉₊ ≤ c := Nat.ceil_le.mpr h3
        exact le_trans (min_le_left _ _) (le_trans h7 (le_writeRun _ ts c))
      · have hcnt : List.countP (fun u => decide (s ≤ u)) (t :: ts)
            = List.countP (fun u => decide (s ≤ u)) ts := by
          rw [List.countP_cons]
          simp [hst]
        rw [hcnt]
        exact ih c

/-- C1: the write loop emits exactly when the elapsed time exceeds
frame_index * current_frame and then increments the counter (writeStep and
writeRun embed exactly that loop), and consequently, for a session active
for T seconds at target rate f whose always-ready write loop keeps
iterating until just before the stop instant (at least the ceiling of
s * f iterations at times in [s, T), for some s in the last frame interval
before T), the final counter is floor(T * f) within plus or minus one. -/
theorem writer_count_tracks_target (f T s : ℚ) (ts : List ℚ)
    (hf : 0 < f) (hs : 0 < s) (hsT : T - 1/f < s)
    (hts : ∀ t ∈ ts, t < T)
    (hm : ⌈s * f⌉₊ ≤ ts.countP (fun u => decide (s ≤ u))) :
    (⌊T * f⌋ - 1 : ℤ) ≤ (writeRun (1/f) ts 0 : ℤ) ∧
    (writeRun (1/f) ts 0 : ℤ) ≤ ⌊T * f⌋ + 1 := by
  have hw := writeRun_lower f s hf ts 0
  have hmin : min (⌈s * f⌉₊) (0 + ts.countP (fun u => decide (s ≤ u)))
      = ⌈s * f⌉₊ := by
    rw [Nat.zero_add]
    exact min_eq_left hm
  rw [hmin] at hw
  constructor
  · have h1 : ((⌊T * f⌋ : ℤ) : ℚ) ≤ T * f := Int.floor_le _
    have h2 : T * f - 1 < s * f := by
      have h2a : (T - 1/f) * f < s * f := mul_lt_mul_of_pos_right hsT hf
      have h2b : (T - 1/f) * f = T * f - 1 := by
        field_simp
      rw [h2b] at h2a
      exact h2a
    have h3 : s * f ≤ (⌈s * f⌉₊ : ℚ) := Nat.le_ceil _
    have h4 : ((⌈s * f⌉₊ : ℕ) : ℚ) ≤ ((writeRun (1/f) ts 0 : ℕ) : ℚ) := by
      exact_mod_cast hw
    have h5 : ((⌊T * f⌋ - 1 : ℤ) : ℚ) < ((writeRun (1/f) ts 0 : ℕ) : ℚ) := by
      push_cast
      linarith
    exact_mod_cast le_of_lt h5
  · have hup := writeRun_upper (1/f) T ts 0 hts (Or.inl rfl)
    rcases hup with h0 | hlt
    · rw [h0]
      have hc1 : 0 < ⌈s * f⌉₊ := Nat.ceil_pos.mpr (mul_pos hs hf)
      have hc2 : 0 < ts.countP (fun u => decide (s ≤ u)) :=
        lt_of_lt_of_le hc1 hm
      obtain ⟨u, hu, hpu⟩ := List.countP_pos_iff.mp hc2
      have hsu : s ≤ u := of_decide_eq_true hpu
      have hTpos : 0 < T := lt_trans (lt_of_lt_of_le hs hsu) (hts u hu)
      have hfl : (0:ℤ) ≤ ⌊T * f⌋ :=
        Int.floor_nonneg.mpr (le_of_lt (mul_pos hTpos hf))
      push_cast
      omega
    · have h1 : ((writeRun (1/f) ts 0 : ℕ) : ℚ) - 1 < T * f := by
        have h2 := mul_lt_mul_of_pos_left hlt hf
        rw [← mul_assoc, mul_one_div_cancel (ne_of_gt hf), one_mul] at h2
        linarith [h2, mul_comm f T]
      have h3 : (writeRun (1/f) ts 0 : ℤ) - 1 < ⌈T * f⌉ := by
        rw [Int.lt_ceil]
        push_cast
        linarith
      have h4 := Int.ceil_le_floor_add_one (T * f)
      omega

/-- Witness for C1: target rate 1 Hz, session active 2 seconds, loop
iterating at times 0, 1/2, 3/2, 3/2; the final count lies within one of
floor(2 * 1). -/
theorem writer_count_tracks_target_witness :
    (⌊(2:ℚ) * 1⌋ - 1 : ℤ) ≤ (writeRun (1/1) [0, 1/2, 3/2, 3/2] 0 : ℤ) ∧
    (writeRun (1/1) [0, 1/2, 3/2, 3/2] 0 : ℤ) ≤ ⌊(2:ℚ) * 1⌋ + 1 :=
  writer_count_tracks_target 1 2 (3/2) [0, 1/2, 3/2, 3/2]
    (by norm_num) (by norm_num) (by norm_num)
    (by
      intro t ht
      simp only [List.mem_cons, List.not_mem_nil, or_false] at ht
      rcases ht with h | h | h | h <;> subst h <;> norm_num)
    (by norm_num [List.countP_cons, List.countP_nil])

/-- Helper: a fold of max stays below any bound dominating the seed and
every element. -/
theorem foldl_max_le (B : ℚ) :
    ∀ (l : List ℚ) (b : ℚ), b ≤ B → (∀ x ∈ l, x ≤ B) → l.foldl max b ≤ B := by
  intro l
  induction l with
  | nil => intro b hb _; exact hb
  | cons x l ih =>
    intro b hb hl
    rw [List.foldl_cons]
    exact ih (max b x) (max_le hb (hl x (List.mem_cons_self _ _)))
      (fun y hy => hl y (List.mem_cons_of_mem _ hy))

/-- C10: one stop request is issued per pipeline and the stop threads run
concurrently (started within a small overhead window e of each other, each
completing one grace period after its start), so joining them all
completes within one grace period plus the overhead, strictly less than
paying the grace period once per pipeline sequentially. -/
theorem parallel_teardown_one_grace_period (t0 e : ℚ) (startTimes : List ℚ)
    (he : 0 ≤ e) (hs : ∀ u ∈ startTimes, t0 ≤ u ∧ u ≤ t0 + e)
    (hn : 2 ≤ startTimes.length) (heg : e < gracePeriod) :
    joinAll startTimes t0 ≤ t0 + e + gracePeriod ∧
    joinAll startTimes t0 < t0 + (startTimes.length : ℚ) * gracePeriod := by
  have hg : (0:ℚ) < gracePeriod := by norm_num [gracePeriod]
  have hb : joinAll startTimes t0 ≤ t0 + e + gracePeriod := by
    unfold joinAll
    apply foldl_max_le
    · linarith
    · intro x hx
      rcases List.mem_map.mp hx with ⟨u, hu, hux⟩
      subst hux
      unfold stopThreadCompletion
      have h2 := (hs u hu).2
      linarith
  refine ⟨hb, ?_⟩
  have h2 : (2:ℚ) ≤ (startTimes.length : ℚ) := by exact_mod_cast hn
  have h3 : (2:ℚ) * gracePeriod ≤ (startTimes.length : ℚ) * gracePeriod :=
    mul_le_mul_of_nonneg_right h2 (le_of_lt hg)
  linarith

/-- Witness for C10: four stop threads started within one second of
instant 0 all complete by 1 + gracePeriod, well under four grace
periods. -/
theorem parallel_teardown_one_grace_period_witness :
    joinAll [0, 1, 1, 0] 0 ≤ 0 + 1 + gracePeriod ∧
    joinAll [0, 1, 1, 0] 0
      < 0 + (([0, 1, 1, 0] : List ℚ).length : ℚ) * gracePeriod :=
  parallel_teardown_one_grace_period 0 1 [0, 1, 1, 0] (by norm_num)
    (by
      intro u hu
      simp only [List.mem_cons, List.not_mem_nil, or_false] at hu
      rcases hu with h | h | h | h <;> subst h <;> constructor <;> norm_num)
    (by norm_num) (by norm_num [gracePeriod])

end Pycam
